import Mathlib

/-!
Verification of the MC/DC adaptive dictionary-compression core (mcz).

Shallow embedding of the C sources under src/ (mcz_config.c,
mcz_compression.c, mcz_sampling.c).  Strings are modelled as lists of
byte values (List Nat); NULL C strings are modelled as none.
Machine error codes: EINVAL = 22, ERANGE = 34, negated on return as in
the C code.
-/

/- ===================== Configuration (mcz_config.c) ===================== -/

/-- Fields of mcz_cfg_t consulted by the verified functions
    (src/mcz_config.h, src/mcz_config.c).  sample_p is a double in C;
    it is modelled as a rational. -/
structure MczCfg where
  enable_comp : Bool
  enable_dict : Bool
  enable_training : Bool
  enable_sampling : Bool
  dict_dir : Option (List Nat)
  spool_dir : Option (List Nat)
  min_comp_size : Nat
  max_comp_size : Nat
  sample_p : Rat
deriving Repr, DecidableEq

/-- strnull_or_empty from src/mcz_config.c: NULL or empty string. -/
def strnull_or_empty : Option (List Nat) → Bool
  | none => true
  | some s => s.isEmpty

/-- mcz_config_sanity_check (src/mcz_config.c lines 195-222): returns the
    updated configuration and the return code.  When enable_comp is set and
    dict_dir is missing, or sampling is enabled with spool_dir missing, it
    clears enable_dict and enable_training and returns -1. -/
def mcz_config_sanity_check (cfg : MczCfg) : MczCfg × Int :=
  if !cfg.enable_comp then (cfg, 0)
  else
    let ok1 := !(strnull_or_empty cfg.dict_dir)
    let ok2 := !(cfg.enable_sampling && strnull_or_empty cfg.spool_dir)
    if ok1 && ok2 then (cfg, 0)
    else ({ cfg with enable_dict := false, enable_training := false }, -1)

/-- Final sanity block of parse_mcz_config (src/mcz_config.c lines 350-369):
    given the configuration produced by the key/value loop and the
    accumulated return code rc, performs the four end checks; on the first
    failing one it disables enable_comp and enable_dict and returns the
    first fatal code. -/
def parse_tail_code (cfg : MczCfg) : Option Int :=
  if cfg.max_comp_size < cfg.min_comp_size then some (-22)
  else if cfg.enable_sampling ∧ (cfg.sample_p ≤ 0 ∨ 1 < cfg.sample_p) then some (-34)
  else if cfg.dict_dir = none ∧ cfg.enable_comp ∧ cfg.enable_dict then some (-22)
  else if cfg.spool_dir = none ∧ cfg.enable_comp ∧ cfg.enable_dict then some (-22)
  else none

/-- The goto-err path of parse_mcz_config: on the first failing end check,
    disable enable_comp and enable_dict and return the first fatal code
    (rc if already nonzero, else the current check's code). -/
def parse_mcz_config_tail (cfg : MczCfg) (rc : Int) : MczCfg × Int :=
  match parse_tail_code cfg with
  | some code => ({ cfg with enable_comp := false, enable_dict := false },
                  if rc ≠ 0 then rc else code)
  | none => (cfg, rc)

/- ================= Compression hot path (mcz_compression.c) ============= -/

/-- Result and side effects of one mcz_maybe_compress call: the return
    value, the per-namespace statistics counters incremented in this call,
    the observation reported to the efficiency tracker (none when no call
    to mcz_eff_on_observation was made), and the outputs. -/
structure CompressResult where
  ret : Int := 0
  writes_inc : Bool := false
  bytes_raw_inc : Nat := 0
  skipped_min : Bool := false
  skipped_max : Bool := false
  skipped_incomp : Bool := false
  compress_errs : Bool := false
  observation : Option (Nat × Nat) := none
  bytes_cmp_inc : Nat := 0
  dst_set : Bool := false
  dict_id_out : Option Nat := none
deriving Repr, DecidableEq

/-- Shallow embedding of mcz_maybe_compress (src/mcz_compression.c lines
    687-749).  src_sz is the value size; meta is the dictionary id that
    mcz_pick_dict chose for the key (none when no table or no match);
    is_default is the result of mcz_stats_is_default for the stats bucket
    of the key; codec is the zstd outcome: Except.ok csz for a compressed
    size, Except.error e (e > 0) for a zstd error code. -/
def mcz_maybe_compress (cfg : MczCfg) (src_sz : Nat) (meta : Option Nat)
    (is_default : Bool) (codec : Except Nat Nat) : CompressResult :=
  if !cfg.enable_comp then {}
  else if src_sz = 0 then { ret := -22 }
  else if cfg.min_comp_size ≠ 0 ∧ src_sz < cfg.min_comp_size then
    { writes_inc := true, bytes_raw_inc := src_sz, skipped_min := true }
  else if cfg.max_comp_size ≠ 0 ∧ cfg.max_comp_size < src_sz then
    { writes_inc := true, bytes_raw_inc := src_sz, skipped_max := true }
  else
    match codec with
    | .error e =>
      { ret := -(e : Int), writes_inc := true, bytes_raw_inc := src_sz,
        compress_errs := true }
    | .ok csz =>
      let obs : Option (Nat × Nat) := if is_default then some (src_sz, csz) else none
      if src_sz ≤ csz then
        { writes_inc := true, bytes_raw_inc := src_sz, observation := obs,
          skipped_incomp := true }
      else
        { ret := (csz : Int), writes_inc := true, bytes_raw_inc := src_sz,
          observation := obs, bytes_cmp_inc := csz, dst_set := true,
          dict_id_out := some (meta.getD 0) }

/-- A configuration with compression on, no size gates, and dictionary
    features enabled; used to evaluate concrete calls. -/
def cfgPlain : MczCfg :=
  { enable_comp := true, enable_dict := true, enable_training := true,
    enable_sampling := false,
    dict_dir := some [47, 100], spool_dir := some [47, 115],
    min_comp_size := 0, max_comp_size := 0, sample_p := 1 }

/- ========================= Claim C1 ===================================== -/

/-- Claim C1, counterexample.  A value of 10 bytes in the default namespace
    whose compressed size equals its original size is recorded as
    skipped-incompressible and bypassed (return 0), yet the observation
    (10, 10) HAS been reported to the efficiency tracker: in the code the
    call to mcz_eff_on_observation (step 4, lines 731-737) precedes the
    ratio check (step 5, lines 738-742), so a bypassed incompressible value
    does update the EWMA, contradicting the claim. -/
theorem mcz_maybe_compress_incomp_observed :
    (mcz_maybe_compress cfgPlain 10 none true (Except.ok 10)).skipped_incomp = true ∧
    (mcz_maybe_compress cfgPlain 10 none true (Except.ok 10)).ret = 0 ∧
    (mcz_maybe_compress cfgPlain 10 none true (Except.ok 10)).observation = some (10, 10) := by
  refine ⟨rfl, rfl, rfl⟩

theorem mcz_maybe_compress_observation_eval (cfg : MczCfg) (src_sz : Nat)
    (meta : Option Nat) (is_default : Bool) (codec : Except Nat Nat) :
    (mcz_maybe_compress cfg src_sz meta is_default codec).observation =
      if cfg.enable_comp = true ∧ src_sz ≠ 0
         ∧ ¬(cfg.min_comp_size ≠ 0 ∧ src_sz < cfg.min_comp_size)
         ∧ ¬(cfg.max_comp_size ≠ 0 ∧ cfg.max_comp_size < src_sz)
         ∧ is_default = true then
        (match codec with
         | Except.ok csz => some (src_sz, csz)
         | Except.error _ => none)
      else none := by
  unfold mcz_maybe_compress
  by_cases h1 : cfg.enable_comp = true
  · by_cases h2 : src_sz = 0
    · simp [h1, h2]
    · by_cases h3 : cfg.min_comp_size ≠ 0 ∧ src_sz < cfg.min_comp_size
      · simp [h1, h2, h3]
      · by_cases h4 : cfg.max_comp_size ≠ 0 ∧ cfg.max_comp_size < src_sz
        · simp [h1, h2, h3, h4]
        · cases codec with
          | error e => simp [h1, h2, h3, h4]
          | ok csz =>
            by_cases hd : is_default = true
            · by_cases hle : src_sz ≤ csz <;> simp [h1, h2, h3, h4, hd, hle]
            · by_cases hle : src_sz ≤ csz <;> simp [h1, h2, h3, h4, hd, hle]
  · have hcc : cfg.enable_comp = false := by
      cases h : cfg.enable_comp
      · rfl
      · exact absurd h h1
    simp [hcc]

/-- Claim C1, amended.  In mcz_maybe_compress an observation is reported to
    the efficiency tracker exactly when compression is enabled, the value
    is non-empty, the size gates pass, the codec succeeds and the chosen
    namespace is "default": every reported observation arises that way
    (so values rejected by the size gates, or failing in the codec, or
    outside the default namespace, never report one), and every call
    meeting those conditions reports (src_sz, csz) — even when the value
    is then bypassed as incompressible, because the report (code step 4)
    precedes the csz ≥ src_sz check (step 5), which still records the
    value as skipped-incompressible and returns 0. -/
theorem mcz_maybe_compress_observation_spec (cfg : MczCfg) (src_sz : Nat)
    (meta : Option Nat) (is_default : Bool) (codec : Except Nat Nat) :
    (∀ obs, (mcz_maybe_compress cfg src_sz meta is_default codec).observation = some obs →
       cfg.enable_comp = true ∧ src_sz ≠ 0
       ∧ ¬(cfg.min_comp_size ≠ 0 ∧ src_sz < cfg.min_comp_size)
       ∧ ¬(cfg.max_comp_size ≠ 0 ∧ cfg.max_comp_size < src_sz)
       ∧ is_default = true
       ∧ ∃ csz, codec = Except.ok csz ∧ obs = (src_sz, csz))
    ∧ (∀ csz, codec = Except.ok csz → cfg.enable_comp = true → src_sz ≠ 0 →
       ¬(cfg.min_comp_size ≠ 0 ∧ src_sz < cfg.min_comp_size) →
       ¬(cfg.max_comp_size ≠ 0 ∧ cfg.max_comp_size < src_sz) →
       ((mcz_maybe_compress cfg src_sz meta is_default codec).observation
          = if is_default then some (src_sz, csz) else none)
       ∧ (src_sz ≤ csz →
           (mcz_maybe_compress cfg src_sz meta is_default codec).skipped_incomp = true
           ∧ (mcz_maybe_compress cfg src_sz meta is_default codec).ret = 0)) := by
  have heval := mcz_maybe_compress_observation_eval cfg src_sz meta is_default codec
  constructor
  · intro obs hobs
    rw [heval] at hobs
    by_cases hcond : cfg.enable_comp = true ∧ src_sz ≠ 0
        ∧ ¬(cfg.min_comp_size ≠ 0 ∧ src_sz < cfg.min_comp_size)
        ∧ ¬(cfg.max_comp_size ≠ 0 ∧ cfg.max_comp_size < src_sz)
        ∧ is_default = true
    · rw [if_pos hcond] at hobs
      obtain ⟨he, hs, hm1, hm2, hd⟩ := hcond
      cases codec with
      | error e => exact absurd hobs (by simp)
      | ok csz =>
        exact ⟨he, hs, hm1, hm2, hd, csz, rfl, (Option.some.inj hobs).symm⟩
    · rw [if_neg hcond] at hobs
      exact absurd hobs (by simp)
  · intro csz hcodec he hs hm1 hm2
    subst hcodec
    constructor
    · rw [heval]
      cases hd : is_default
      · rw [if_neg (by simp [hd]), if_neg (by simp)]
      · rw [if_pos ⟨he, hs, hm1, hm2, rfl⟩, if_pos rfl]
    · intro hle
      unfold mcz_maybe_compress
      simp only [he, Bool.not_true, Bool.false_eq_true, if_false,
        if_neg hs, if_neg hm1, if_neg hm2]
      rw [if_pos hle]
      exact ⟨rfl, rfl⟩

/-- Claim C1 witness: the amended theorem applied at a compressible
    default-namespace value (10 bytes compressing to 4): the observation
    (10, 4) is reported. -/
theorem mcz_maybe_compress_observation_spec_witness :
    (mcz_maybe_compress cfgPlain 10 (some 3) true (Except.ok 4)).observation = some (10, 4) := by
  have h := (mcz_maybe_compress_observation_spec cfgPlain 10 (some 3) true
    (Except.ok 4)).2 4 rfl rfl (by decide) (by decide) (by decide)
  simpa using h.1

/- ========================= Claim C2 ===================================== -/

/-- A configuration that fails the startup sanity check: compression is
    enabled but dict_dir is missing. -/
def cfgNoDictDir : MczCfg :=
  { enable_comp := true, enable_dict := true, enable_training := true,
    enable_sampling := false,
    dict_dir := none, spool_dir := some [47, 115],
    min_comp_size := 0, max_comp_size := 0, sample_p := 1 }

/-- Claim C2, counterexample.  When mcz_config_sanity_check fails (here:
    enable_comp set but dict_dir missing) it returns -1 but leaves
    enable_comp TRUE: only enable_dict and enable_training are cleared
    (src/mcz_config.c lines 214-219), contradicting the claim that both
    enable_comp and enable_dict become false. -/
theorem mcz_config_sanity_check_keeps_enable_comp :
    (mcz_config_sanity_check cfgNoDictDir).2 = -1 ∧
    (mcz_config_sanity_check cfgNoDictDir).1.enable_comp = true ∧
    (mcz_config_sanity_check cfgNoDictDir).1.enable_dict = false := by
  refine ⟨rfl, rfl, rfl⟩

/-- Claim C2, amended.  When mcz_config_sanity_check fails it disables
    dictionary use and training (enable_dict and enable_training become
    false) but leaves enable_comp unchanged, and returns -1.  It is the
    final sanity block of parse_mcz_config that on failure disables both
    enable_comp and enable_dict and returns a nonzero code; with
    enable_comp false, mcz_maybe_compress returns 0 for every value, so the
    core runs in pass-through mode. -/
theorem mcz_config_sanity_spec (cfg : MczCfg) (rc : Int) :
    (cfg.enable_comp = true →
     (strnull_or_empty cfg.dict_dir = true ∨
      (cfg.enable_sampling = true ∧ strnull_or_empty cfg.spool_dir = true)) →
     mcz_config_sanity_check cfg
       = ({ cfg with enable_dict := false, enable_training := false }, -1))
    ∧ ((cfg.max_comp_size < cfg.min_comp_size ∨
        (cfg.enable_sampling = true ∧ (cfg.sample_p ≤ 0 ∨ 1 < cfg.sample_p)) ∨
        (cfg.dict_dir = none ∧ cfg.enable_comp = true ∧ cfg.enable_dict = true) ∨
        (cfg.spool_dir = none ∧ cfg.enable_comp = true ∧ cfg.enable_dict = true)) →
       (parse_mcz_config_tail cfg rc).1.enable_comp = false
       ∧ (parse_mcz_config_tail cfg rc).1.enable_dict = false
       ∧ (parse_mcz_config_tail cfg rc).2 ≠ 0)
    ∧ (∀ (cfg2 : MczCfg) (src_sz : Nat) (meta : Option Nat) (d : Bool) (codec : Except Nat Nat),
         cfg2.enable_comp = false →
         (mcz_maybe_compress cfg2 src_sz meta d codec).ret = 0) := by
  refine ⟨?_, ?_, ?_⟩
  · intro hc hfail
    unfold mcz_config_sanity_check
    rw [hc]
    simp only [Bool.not_true, Bool.false_eq_true, if_false]
    have hko : (!strnull_or_empty cfg.dict_dir &&
        !(cfg.enable_sampling && strnull_or_empty cfg.spool_dir)) = false := by
      rcases hfail with h | ⟨h1, h2⟩
      · simp [h]
      · simp [h1, h2]
    rw [hko]
    simp
  · intro htail
    have hcode : ∃ code : Int, parse_tail_code cfg = some code ∧ code ≠ 0 := by
      simp only [parse_tail_code]
      split_ifs with h1 h2 h3 h4
      · exact ⟨-22, rfl, by decide⟩
      · exact ⟨-34, rfl, by decide⟩
      · exact ⟨-22, rfl, by decide⟩
      · exact ⟨-22, rfl, by decide⟩
      · rcases htail with h | h | h | h
        · exact absurd h h1
        · exact absurd h h2
        · exact absurd h h3
        · exact absurd h h4
    obtain ⟨code, hc1, hc2⟩ := hcode
    simp only [parse_mcz_config_tail, hc1]
    refine ⟨trivial, trivial, ?_⟩
    split_ifs with hr
    · exact hr
    · exact hc2
  · intro cfg2 src_sz meta d codec h2
    unfold mcz_maybe_compress
    rw [h2]
    rfl

/-- Claim C2 witness: the amended theorem applied to the concrete failing
    configuration cfgNoDictDir with rc = 0. -/
theorem mcz_config_sanity_spec_witness :
    (mcz_config_sanity_check cfgNoDictDir).1.enable_dict = false ∧
    (parse_mcz_config_tail cfgNoDictDir 0).1.enable_comp = false ∧
    (parse_mcz_config_tail cfgNoDictDir 0).2 ≠ 0 := by
  have h := mcz_config_sanity_spec cfgNoDictDir 0
  have h1 := h.1 rfl (Or.inl rfl)
  have h2 := h.2.1 (Or.inr (Or.inr (Or.inl ⟨rfl, rfl, rfl⟩)))
  refine ⟨?_, h2.1, h2.2.2⟩
  rw [h1]

/- ===================== Trainer (mcz_compression.c) ====================== -/

/-- Side effects of one trainer_main iteration past the drain of a
    non-empty batch: counter increments, persistence/publication,
    training-active transition and mark_retrained. -/
structure TrainerResult where
  trainer_errs_inc : Nat := 0
  persisted : Bool := false
  rescanned : Bool := false
  published : Bool := false
  deactivated : Bool := false
  retrained : Bool := false
  reservoir_reset : Bool := false
  pending_dec : Nat := 0
deriving Repr, DecidableEq

/-- Shallow embedding of one trainer_main iteration after a non-empty
    sample batch has been drained and flattened (src/mcz_compression.c
    lines 336-411).  total is the summed batch size (positive for a
    non-empty batch), pending the value of bytes_pending loaded for the
    final decrement, train the ZDICT outcome (Except.error e for a zstd
    error, Except.ok d for a dictionary of d bytes), persist_rc the return
    code of mcz_save_dictionary_and_manifest and reload_ok whether
    mcz_reload_dictionaries scanned the directory and published a table
    (its return code is ignored by the trainer). -/
def trainer_iteration (total pending : Nat) (train : Except Nat Nat)
    (persist_rc : Int) (reload_ok : Bool) : TrainerResult :=
  match train with
  | .error _ =>
    { trainer_errs_inc := 1, pending_dec := min total pending,
      reservoir_reset := true }
  | .ok dict_sz =>
    if dict_sz < 1024 then
      { trainer_errs_inc := 1, pending_dec := min total pending,
        reservoir_reset := true }
    else if persist_rc = 0 then
      { persisted := true, rescanned := true, published := reload_ok,
        pending_dec := min total pending, reservoir_reset := true,
        deactivated := true, retrained := true }
    else
      { trainer_errs_inc := 1, pending_dec := min total pending,
        reservoir_reset := true }

/- ========================= Claim C3 ===================================== -/

/-- Claim C3.  On a trainer iteration that drained a non-empty batch
    (total > 0): a codec error or a dictionary smaller than 1024 bytes is
    rejected — nothing is persisted or published, training stays active,
    mark_retrained is not called and the trainer-error counter is
    incremented; persistence, rescan, publication, deactivation and
    mark_retrained happen exactly when the dictionary is at least 1 KiB
    and persisting dict plus manifest succeeded (publication additionally
    needs the rescan itself to succeed inside mcz_reload_dictionaries). -/
theorem trainer_iteration_spec (total pending : Nat) (train : Except Nat Nat)
    (persist_rc : Int) (reload_ok : Bool) (htot : 0 < total) :
    (∀ e, train = .error e →
      trainer_iteration total pending train persist_rc reload_ok =
        { trainer_errs_inc := 1, pending_dec := min total pending,
          reservoir_reset := true })
    ∧ (∀ d, train = .ok d → d < 1024 →
      trainer_iteration total pending train persist_rc reload_ok =
        { trainer_errs_inc := 1, pending_dec := min total pending,
          reservoir_reset := true })
    ∧ (∀ d, train = .ok d → 1024 ≤ d → persist_rc = 0 →
      trainer_iteration total pending train persist_rc reload_ok =
        { persisted := true, rescanned := true, published := reload_ok,
          pending_dec := min total pending, reservoir_reset := true,
          deactivated := true, retrained := true })
    ∧ ((trainer_iteration total pending train persist_rc reload_ok).published = true →
        ∃ d, train = .ok d ∧ 1024 ≤ d ∧ persist_rc = 0) := by
  refine ⟨?_, ?_, ?_, ?_⟩
  · intro e he
    rw [he]
    rfl
  · intro d hd hlt
    rw [hd]
    simp only [trainer_iteration, if_pos hlt]
  · intro d hd hge hrc
    rw [hd]
    simp only [trainer_iteration, if_neg (Nat.not_lt.mpr hge), if_pos hrc]
  · intro hpub
    match htr : train with
    | .error e =>
      simp [trainer_iteration] at hpub
    | .ok d =>
      by_cases hsm : d < 1024
      · exfalso
        simp [trainer_iteration, if_pos hsm] at hpub
      · by_cases hrc : persist_rc = 0
        · exact ⟨d, rfl, Nat.not_lt.mp hsm, hrc⟩
        · exfalso
          simp [trainer_iteration, if_neg hsm, if_neg hrc] at hpub

/-- Claim C3 witness: the trainer spec applied at a successful iteration
    (2048-byte dictionary, persist ok, rescan ok) and at a too-small
    dictionary. -/
theorem trainer_iteration_spec_witness :
    (trainer_iteration 5 9 (Except.ok 2048) 0 true).retrained = true ∧
    (trainer_iteration 5 9 (Except.ok 100) 0 true).trainer_errs_inc = 1 := by
  have h1 := (trainer_iteration_spec 5 9 (Except.ok 2048) 0 true (by decide)).2.2.1
    2048 rfl (by decide) rfl
  have h2 := (trainer_iteration_spec 5 9 (Except.ok 100) 0 true (by decide)).2.1
    100 rfl (by decide)
  rw [h1, h2]
  exact ⟨rfl, rfl⟩

/- =============== Namespace matching (mcz_compression.c) ================= -/

/-- Length of the current best match (best_len in the C code; 0 when no
    best candidate yet). -/
def bestLen : Option (List Nat) → Nat
  | none => 0
  | some p => p.length

/-- One iteration of the mcz_match_namespace loop (src/mcz_compression.c
    lines 635-649): skip a prefix longer than the key, then on an exact
    byte-prefix match keep it only when strictly longer than the current
    best. -/
def matchStep (key : List Nat) (best : Option (List Nat)) (ns : List Nat) :
    Option (List Nat) :=
  if key.length < ns.length then best
  else if ns <+: key ∧ bestLen best < ns.length then some ns
  else best

/-- mcz_match_namespace (src/mcz_compression.c lines 626-651): longest
    byte-prefix match of the key over the namespace strings, scanned in
    order; none when no namespace matches. -/
def mcz_match_namespace (key : List Nat) (spaces : List (List Nat)) :
    Option (List Nat) :=
  spaces.foldl (matchStep key) none

theorem matchStep_prefix (key : List Nat) (acc : Option (List Nat))
    (ns : List Nat) (hacc : ∀ p, acc = some p → p <+: key) :
    ∀ p, matchStep key acc ns = some p → p <+: key := by
  intro p hp
  unfold matchStep at hp
  split_ifs at hp with h1 h2
  · exact hacc p hp
  · cases hp
    exact h2.1
  · exact hacc p hp

theorem matchStep_mono (key : List Nat) (acc : Option (List Nat))
    (ns : List Nat) : bestLen acc ≤ bestLen (matchStep key acc ns) := by
  unfold matchStep
  split_ifs with h1 h2
  · exact le_refl _
  · exact le_of_lt h2.2
  · exact le_refl _

theorem matchStep_mem (key : List Nat) (acc : Option (List Nat))
    (ns : List Nat) :
    ∀ p, matchStep key acc ns = some p → p = ns ∨ acc = some p := by
  intro p hp
  unfold matchStep at hp
  split_ifs at hp with h1 h2
  · exact Or.inr hp
  · cases hp
    exact Or.inl rfl
  · exact Or.inr hp

theorem matchStep_best (key : List Nat) (acc : Option (List Nat))
    (ns : List Nat) (hpre : ns <+: key) :
    ns.length ≤ bestLen (matchStep key acc ns) := by
  unfold matchStep
  split_ifs with h1 h2
  · exact absurd hpre.length_le (Nat.not_le.mpr h1)
  · exact le_refl _
  · rcases Nat.lt_or_ge (bestLen acc) ns.length with hlt | hge
    · exact absurd ⟨hpre, hlt⟩ h2
    · exact hge

theorem matchStep_none (key : List Nat) (acc : Option (List Nat))
    (ns : List Nat) (h : matchStep key acc ns = none) : acc = none := by
  unfold matchStep at h
  split_ifs at h with h1 h2
  · exact h
  · exact h

theorem matchFold_spec (key : List Nat) :
    ∀ (spaces : List (List Nat)) (acc : Option (List Nat)),
    (∀ p, acc = some p → p <+: key) →
    bestLen acc ≤ bestLen (spaces.foldl (matchStep key) acc)
    ∧ (∀ p, spaces.foldl (matchStep key) acc = some p →
        (p ∈ spaces ∨ acc = some p) ∧ p <+: key)
    ∧ (∀ q ∈ spaces, q <+: key →
        q.length ≤ bestLen (spaces.foldl (matchStep key) acc))
    ∧ (spaces.foldl (matchStep key) acc = none → acc = none) := by
  intro spaces
  induction spaces with
  | nil =>
    intro acc hacc
    refine ⟨le_refl _, ?_, ?_, fun h => h⟩
    · intro p hp
      exact ⟨Or.inr hp, hacc p hp⟩
    · intro q hq
      exact absurd hq (List.not_mem_nil q)
  | cons ns rest ih =>
    intro acc hacc
    have hacc1 := matchStep_prefix key acc ns hacc
    obtain ⟨ihmono, ihmem, ihmax, ihnone⟩ := ih (matchStep key acc ns) hacc1
    simp only [List.foldl_cons]
    refine ⟨le_trans (matchStep_mono key acc ns) ihmono, ?_, ?_, ?_⟩
    · intro p hp
      obtain ⟨hmem, hpre⟩ := ihmem p hp
      refine ⟨?_, hpre⟩
      rcases hmem with h | h
      · exact Or.inl (List.mem_cons_of_mem ns h)
      · rcases matchStep_mem key acc ns p h with h2 | h2
        · exact Or.inl (h2 ▸ List.mem_cons_self ns rest)
        · exact Or.inr h2
    · intro q hq hqpre
      rcases List.mem_cons.mp hq with h | h
      · subst h
        exact le_trans (matchStep_best key acc q hqpre) ihmono
      · exact ihmax q h hqpre
    · intro hres
      exact matchStep_none key acc ns (ihnone hres)

/- ========================= Claim C4 ===================================== -/

/-- Claim C4.  For every key and every list of (nonempty) namespace prefix
    strings, mcz_match_namespace selects a listed prefix of greatest length
    that is an exact byte-prefix of the key, yields no match exactly when
    no listed prefix is a byte-prefix of the key, and a prefix longer than
    the key never matches (a returned prefix is always a byte-prefix, hence
    no longer than the key). -/
theorem mcz_match_namespace_spec (key : List Nat) (spaces : List (List Nat))
    (hne : ∀ ns ∈ spaces, ns ≠ []) :
    (∀ p, mcz_match_namespace key spaces = some p →
       p ∈ spaces ∧ p <+: key ∧ p.length ≤ key.length ∧
       ∀ q ∈ spaces, q <+: key → q.length ≤ p.length)
    ∧ (mcz_match_namespace key spaces = none ↔ ∀ q ∈ spaces, ¬ q <+: key) := by
  obtain ⟨hmono, hmem, hmax, hnone⟩ :=
    matchFold_spec key spaces none (by intro p hp; cases hp)
  have hdef : mcz_match_namespace key spaces
      = spaces.foldl (matchStep key) none := rfl
  rw [hdef]
  constructor
  · intro p hp
    obtain ⟨hin, hpre⟩ := hmem p hp
    have hin2 : p ∈ spaces := by
      rcases hin with h | h
      · exact h
      · cases h
    refine ⟨hin2, hpre, hpre.length_le, ?_⟩
    intro q hq hqpre
    have := hmax q hq hqpre
    rwa [hp] at this
  · constructor
    · intro hres q hq hqpre
      have hlen := hmax q hq hqpre
      rw [hres] at hlen
      have : q = [] := List.length_eq_zero.mp (Nat.le_zero.mp hlen)
      exact absurd this (hne q hq)
    · intro hnopre
      rcases hr : spaces.foldl (matchStep key) none with _ | p
      · rfl
      · obtain ⟨hin, hpre⟩ := hmem p hr
        rcases hin with h | h
        · exact absurd hpre (hnopre p h)
        · cases h

/-- Claim C4 witness: the matcher applied to the key "logbook" (bytes
    [108,111,103,98,111,111,107]) against the prefix list ["log:", "user:"]
    (with 58 the colon byte): the key does not start with "log:" because
    the prefix includes the colon, so there is no match. -/
theorem mcz_match_namespace_spec_witness :
    mcz_match_namespace [108, 111, 103, 98, 111, 111, 107]
      [[108, 111, 103, 58], [117, 115, 101, 114, 58]] = none := by
  have h := (mcz_match_namespace_spec [108, 111, 103, 98, 111, 111, 107]
    [[108, 111, 103, 58], [117, 115, 101, 114, 58]] (by decide)).2
  apply h.mpr
  intro q hq
  rcases List.mem_cons.mp hq with h1 | h1
  · subst h1
    decide
  · rcases List.mem_cons.mp h1 with h2 | h2
    · subst h2
      decide
    · cases h2

/- ============== Reservoir byte counter (mcz_compression.c) ============== -/

/-- State of the bytes_pending counter together with the single consumer's
    in-flight decrement: obs = some (now_pending, total) after the trainer
    has loaded bytes_pending (now_pending) for a drained batch of total
    bytes but before the matching fetch_sub. -/
structure ResState where
  pending : Int
  obs : Option (Int × Int)
deriving Repr, DecidableEq

/-- Interleaving steps of the reservoir byte counter.  push: a producer in
    sample_for_training adds exactly the sample length
    (src/mcz_compression.c line 575).  load: the trainer reads bytes_pending
    into now_pending for a batch of total bytes (line 392); at most one
    decrement is in flight because the trainer is a single thread.  sub: the
    trainer subtracts dec = min(total, now_pending)
    (src/mcz_compression.c lines 393-394). -/
inductive ResStep : ResState → ResState → Prop
  | push (s : ResState) (n : Int) (hn : 0 ≤ n) :
      ResStep s { s with pending := s.pending + n }
  | load (s : ResState) (total : Int) (ht : 0 ≤ total) (h : s.obs = none) :
      ResStep s { s with obs := some (s.pending, total) }
  | sub (s : ResState) (now_pending total : Int)
      (h : s.obs = some (now_pending, total)) :
      ResStep s { pending := s.pending - min total now_pending, obs := none }

/-- The initial reservoir state (atomic_init(&ctx->bytes_pending, 0)). -/
def resInit : ResState := { pending := 0, obs := none }

/-- States reachable by any interleaving of producer pushes and the
    consumer's load/sub pairs. -/
def ResReachable (s : ResState) : Prop :=
  Relation.ReflTransGen ResStep resInit s

/-- Inductive invariant: the counter is non-negative and an in-flight
    observation is a non-negative lower snapshot of the counter. -/
def ResInv (s : ResState) : Prop :=
  0 ≤ s.pending ∧
    ∀ o t, s.obs = some (o, t) → 0 ≤ o ∧ o ≤ s.pending ∧ 0 ≤ t

theorem resStep_preserves (s s2 : ResState) (hstep : ResStep s s2)
    (hinv : ResInv s) : ResInv s2 := by
  obtain ⟨hp, hobs⟩ := hinv
  cases hstep with
  | push n hn =>
    refine ⟨?_, ?_⟩
    · show 0 ≤ s.pending + n
      omega
    · intro o t ho
      have ho2 : s.obs = some (o, t) := ho
      obtain ⟨h1, h2, h3⟩ := hobs o t ho2
      refine ⟨h1, ?_, h3⟩
      show o ≤ s.pending + n
      omega
  | load total ht h =>
    refine ⟨hp, ?_⟩
    intro o t ho
    have ho2 : (s.pending, total) = (o, t) := Option.some.inj ho
    obtain ⟨h4, h5⟩ := Prod.mk.injEq _ _ _ _ ▸ ho2
    exact ⟨h4 ▸ hp, h4 ▸ le_refl s.pending, h5 ▸ ht⟩
  | sub now_pending total h =>
    obtain ⟨h1, h2, h3⟩ := hobs now_pending total h
    refine ⟨?_, ?_⟩
    · show 0 ≤ s.pending - min total now_pending
      have hmin : min total now_pending ≤ now_pending := min_le_right _ _
      omega
    · intro o t ho
      exact Option.noConfusion ho

/- ========================= Claim C5 ===================================== -/

/-- Claim C5.  Under every interleaving of concurrent producer pushes
    (each adding exactly the sample length) and the single draining
    consumer (which decrements only by the minimum of the drained batch
    total and the counter value it loaded), the bytes_pending counter never
    goes below zero, so the size_t subtraction never wraps. -/
theorem bytes_pending_never_negative (s : ResState)
    (h : ResReachable s) : 0 ≤ s.pending := by
  have hinv : ResInv s := by
    induction h with
    | refl =>
      exact ⟨le_refl 0, fun o t ho => by cases ho⟩
    | tail hr hstep ih =>
      exact resStep_preserves _ _ hstep ih
  exact hinv.1

/-- Claim C5 witness: a concrete interleaving — push 5, trainer loads the
    counter for a batch of 7, a concurrent push of 3, then the decrement —
    ends with bytes_pending = 3 ≥ 0. -/
theorem bytes_pending_never_negative_witness :
    0 ≤ ({ pending := 3, obs := none } : ResState).pending := by
  have h1 : ResStep resInit { pending := 5, obs := none } := by
    have := ResStep.push resInit 5 (by decide)
    simpa [resInit] using this
  have h2 : ResStep { pending := 5, obs := none }
      { pending := 5, obs := some (5, 7) } := by
    have := ResStep.load { pending := 5, obs := none } 7 (by decide) rfl
    simpa using this
  have h3 : ResStep { pending := 5, obs := some (5, 7) }
      { pending := 8, obs := some (5, 7) } := by
    have := ResStep.push { pending := 5, obs := some (5, 7) } 3 (by decide)
    simpa using this
  have h4 : ResStep { pending := 8, obs := some (5, 7) }
      { pending := 3, obs := none } := by
    have := ResStep.sub { pending := 8, obs := some (5, 7) } 5 7 rfl
    simpa using this
  exact bytes_pending_never_negative _
    (Relation.ReflTransGen.tail
      (Relation.ReflTransGen.tail
        (Relation.ReflTransGen.tail
          (Relation.ReflTransGen.tail Relation.ReflTransGen.refl h1) h2) h3) h4)

/- ============== Decompression hot path (mcz_compression.c) ============== -/

/-- Outcome of the zstd frame layer for an item's stored bytes:
    corruptHeader models ZSTD_getFrameContentSize returning
    ZSTD_CONTENTSIZE_ERROR; decodeError e (e a positive zstd error code)
    models a failing ZSTD decompress call; ok content models a frame whose
    decompression yields the original bytes. -/
inductive FrameOutcome
  | corruptHeader
  | decodeError (e : Nat)
  | ok (content : List Nat)
deriving Repr, DecidableEq

/-- An item as seen by mcz_maybe_decompress: the ITEM_ZSTD and
    ITEM_CHUNKED flags, the 16-bit dictionary id stored alongside the
    value, and the frame outcome of its payload. -/
structure DecItem where
  zstd : Bool
  chunked : Bool
  dictid : Nat
  frame : FrameOutcome
deriving Repr, DecidableEq

/-- get_ddict_by_id (src/mcz_compression.c lines 590-598): whether the
    current routing table holds a decompressor handle for the id.  The
    table is modelled as the list of ids present in it (none = no table);
    the underlying mcz_lookup_by_id is modelled from the spec:
    lookup_by_id(table, id) returns the DictMeta for the id or none
    (O(1) direct array). -/
def get_ddict_by_id (table : Option (List Nat)) (id : Nat) : Bool :=
  match table with
  | none => false
  | some ids => ids.contains id

/-- Return value and effects of mcz_maybe_decompress. -/
structure DecompressResult where
  ret : Int
  attempted : Bool
deriving Repr, DecidableEq

/-- Shallow embedding of mcz_maybe_decompress (src/mcz_compression.c lines
    798-862): pass-through (0) when the item is not marked ITEM_ZSTD or is
    chunked; -EINVAL when the stored dict id is nonzero and no decompressor
    handle exists; then the frame is inspected and decompressed, attempted
    recording whether a ZSTD decompress call was made. -/
def mcz_maybe_decompress (table : Option (List Nat)) (it : DecItem) :
    DecompressResult :=
  if ¬it.zstd ∨ it.chunked then ⟨0, false⟩
  else if !get_ddict_by_id table it.dictid ∧ 0 < it.dictid then ⟨-22, false⟩
  else
    match it.frame with
    | .corruptHeader => ⟨-22, false⟩
    | .decodeError e => ⟨-(e : Int), true⟩
    | .ok content => ⟨(content.length : Int), true⟩

/- ========================= Claim C6 ===================================== -/

/-- Claim C6.  For a well-formed item (decode errors carry a positive zstd
    error code; a successfully decoded frame has non-empty content, which
    holds for every item produced by the compress path since it rejects
    zero-byte values), mcz_maybe_decompress returns 0 (pass-through) if and
    only if the item lacks the ITEM_ZSTD flag or carries ITEM_CHUNKED; and
    when the stored dict id is nonzero but the routing table has no
    decompressor handle for it, the call returns a negative error without
    attempting decompression. -/
theorem mcz_maybe_decompress_spec (table : Option (List Nat)) (it : DecItem)
    (hwf1 : ∀ e, it.frame = .decodeError e → 0 < e)
    (hwf2 : ∀ c, it.frame = .ok c → c ≠ []) :
    ((mcz_maybe_decompress table it).ret = 0 ↔ (it.zstd = false ∨ it.chunked = true))
    ∧ (it.zstd = true → it.chunked = false → 0 < it.dictid →
        get_ddict_by_id table it.dictid = false →
        (mcz_maybe_decompress table it).ret < 0
        ∧ (mcz_maybe_decompress table it).attempted = false) := by
  constructor
  · constructor
    · intro hret
      by_contra hneg
      push_neg at hneg
      obtain ⟨hz, hch⟩ := hneg
      have hz2 : it.zstd = true := by
        cases h : it.zstd
        · exact absurd h hz
        · rfl
      have hch2 : it.chunked = false := by
        cases h : it.chunked
        · rfl
        · exact absurd h hch
      unfold mcz_maybe_decompress at hret
      rw [if_neg (by simp [hz2, hch2])] at hret
      by_cases hdd : !get_ddict_by_id table it.dictid ∧ 0 < it.dictid
      · rw [if_pos hdd] at hret
        exact absurd hret (by decide)
      · rw [if_neg hdd] at hret
        rcases hf : it.frame with _ | e | c
        · rw [hf] at hret
          exact absurd hret (by decide)
        · rw [hf] at hret
          have he := hwf1 e hf
          simp only at hret
          omega
        · rw [hf] at hret
          have hc := hwf2 c hf
          have h0 : 0 < c.length := List.length_pos.mpr hc
          simp only at hret
          omega
    · intro h
      unfold mcz_maybe_decompress
      rw [if_pos ?hside]
      case hside =>
        rcases h with h | h
        · exact Or.inl (by simp [h])
        · exact Or.inr h
  · intro hz hch hdid hdd
    unfold mcz_maybe_decompress
    rw [if_neg (by simp [hz, hch]), if_pos ⟨by simp [hdd], hdid⟩]
    exact ⟨by decide, rfl⟩

/-- Claim C6 witness: the spec applied to a compressed, non-chunked item
    with dict id 3 and a valid one-byte frame while the current table
    holds only id 1: the call fails with a negative code and no
    decompression is attempted; and to a chunked item: pass-through. -/
theorem mcz_maybe_decompress_spec_witness :
    (mcz_maybe_decompress (some [1])
       ⟨true, false, 3, FrameOutcome.ok [42]⟩).ret < 0 ∧
    (mcz_maybe_decompress (some [1])
       ⟨true, true, 1, FrameOutcome.ok [42]⟩).ret = 0 := by
  have h1 := (mcz_maybe_decompress_spec (some [1])
    ⟨true, false, 3, FrameOutcome.ok [42]⟩
    (fun e he => nomatch he)
    (fun c hc => by cases hc; decide)).2 rfl rfl (by decide) (by decide)
  have h2 := (mcz_maybe_decompress_spec (some [1])
    ⟨true, true, 1, FrameOutcome.ok [42]⟩
    (fun e he => by cases he)
    (fun c hc => by cases hc; decide)).1
  exact ⟨h1.1, h2.mpr (Or.inr rfl)⟩

/- ===================== Sampler spooler (mcz_sampling.c) ================= -/

/-- UINT32_MAX. -/
def U32MAX : Nat := 4294967295

/-- A queued sample record: deep-copied key and value bytes
    (full_sample_node_s in src/mcz_sampling.c; klen and vlen are the list
    lengths). -/
structure SRec where
  key : List Nat
  val : List Nat
deriving Repr, DecidableEq

/-- Bytes one record adds to the spool: 8-byte header plus key plus value
    (inc in src/mcz_sampling.c line 271). -/
def recInc (r : SRec) : Nat := 8 + r.key.length + r.val.length

/-- The writer guard of src/mcz_sampling.c line 257: both lengths must fit
    in 32 bits. -/
def fitsU32 (r : SRec) : Bool :=
  decide (r.key.length ≤ U32MAX) && decide (r.val.length ≤ U32MAX)

/-- u32le (src/mcz_sampling.c lines 96-101): the four bytes of v,
    least-significant first. -/
def u32le (v : Nat) : List Nat :=
  [v % 256, v / 256 % 256, v / 65536 % 256, v / 16777216 % 256]

/-- Little-endian decoding of a 4-byte list (inverse of u32le on 32-bit
    values); anything else decodes to 0. -/
def u32dec : List Nat → Nat
  | [b0, b1, b2, b3] => b0 + 256 * b1 + 65536 * b2 + 16777216 * b3
  | _ => 0

/-- The bytes written for one record (src/mcz_sampling.c lines 258-269):
    8-byte header (key length LE32 at offset 0, value length LE32 at
    offset 4), then the key bytes, then the value bytes. -/
def encodeRecord (r : SRec) : List Nat :=
  u32le r.key.length ++ u32le r.val.length ++ r.key ++ r.val

/-- reverse_list (src/mcz_sampling.c lines 68-72), accumulator loop. -/
def revLoop : List SRec → List SRec → List SRec
  | p, [] => p
  | p, c :: n => revLoop (c :: p) n

/-- reverse_list entry point. -/
def reverse_list (l : List SRec) : List SRec := revLoop [] l

/-- The MPSC Treiber stack contents after pushing the given records in
    arrival order (mpsc_push, src/mcz_sampling.c lines 54-62): each push
    makes the node the new head, so the drained list is LIFO. -/
def mpsc_stack (pushes : List SRec) : List SRec :=
  pushes.foldl (fun h n => n :: h) []

/-- The per-record loop of sampler_main over one (already reversed)
    drained batch (src/mcz_sampling.c lines 256-282): returns the bytes
    appended to the spool, the final bytes_written counter, and whether
    the cap stop was taken (total >= cap after some record).  Records with
    oversize lengths are skipped without writing. -/
def writeBatch (cap : Nat) : Nat → List SRec → List Nat × Nat × Bool
  | w, [] => ([], w, false)
  | w, r :: rest =>
    if fitsU32 r then
      let w2 := w + recInc r
      if cap ≤ w2 then (encodeRecord r, w2, true)
      else
        let res := writeBatch cap w2 rest
        (encodeRecord r ++ res.1, res.2.1, res.2.2)
    else writeBatch cap w rest

/-- Sum of record increments over a batch. -/
def totalInc (l : List SRec) : Nat := (l.map recInc).sum

/-- Largest single-record increment in a batch (0 when empty). -/
def batchMaxInc (l : List SRec) : Nat :=
  l.foldr (fun r m => max (recInc r) m) 0

/-- Largest single-record increment over a schedule of iterations. -/
def itersMaxInc (iters : List (Nat × List SRec)) : Nat :=
  iters.foldr (fun b m => max (batchMaxInc b.2) m) 0

/-- Final observable state of the sampler consumer thread. -/
structure SamplerFinal where
  written : Nat
  running : Bool
  flushed : Bool
  closed : Bool
  self_stopped : Bool
deriving Repr, DecidableEq

/-- The outer consumer loop of sampler_main (src/mcz_sampling.c lines
    244-299) run over a finite schedule: each iteration carries the
    elapsed seconds since start and the batch drained in that iteration.
    The stop label flushes the buffered writer, closes the file and clears
    g_running; when the schedule is exhausted without a stop the thread is
    still polling (running, nothing flushed). -/
def runSampler (cap window : Nat) : Nat → List (Nat × List SRec) → SamplerFinal
  | w, [] =>
    { written := w, running := true, flushed := false, closed := false,
      self_stopped := false }
  | w, (elapsed, batch) :: rest =>
    if 0 < window ∧ window ≤ elapsed then
      { written := w, running := false, flushed := true, closed := true,
        self_stopped := true }
    else
      let res := writeBatch cap w batch
      if res.2.2 then
        { written := res.2.1, running := false, flushed := true,
          closed := true, self_stopped := true }
      else runSampler cap window res.2.1 rest

/-- The consumer substitutes a 64 MiB default when the configured
    spool_max_bytes is zero (src/mcz_sampling.c line 239). -/
def sampler_consumer_cap (spool_max_bytes : Nat) : Nat :=
  if spool_max_bytes ≠ 0 then spool_max_bytes else 64 * 1024 * 1024

/-- Result of mcz_sampler_maybe_record: the return value and whether a
    node was pushed (with the updated bytes_collected). -/
structure RecordResult where
  ret : Int
  pushed : Bool
  collected2 : Nat
deriving Repr, DecidableEq

/-- Producer-side admission mcz_sampler_maybe_record (src/mcz_sampling.c
    lines 351-386).  p_gate abstracts the Bernoulli draw of lines 360-366:
    it is false when sample_p <= 0 or the 32-bit draw exceeds the
    threshold, true when sample_p >= 1 or the draw passes.  collected is
    the current g_collected value and cap the RAW configured
    spool_max_bytes (the producer performs no zero-default substitution). -/
def mcz_sampler_maybe_record (configured running p_gate : Bool)
    (collected cap klen vlen : Nat) : RecordResult :=
  if ¬configured then ⟨-22, false, collected⟩
  else if ¬running then ⟨0, false, collected⟩
  else if ¬p_gate then ⟨0, false, collected⟩
  else if cap ≤ collected then ⟨0, false, collected⟩
  else ⟨1, true, collected + klen + vlen + 8⟩

/- ================= Sampler loop lemmas ================================== -/

theorem revLoop_eq (l : List SRec) : ∀ acc, revLoop acc l = l.reverse ++ acc := by
  induction l with
  | nil => intro acc; simp [revLoop]
  | cons c n ih => intro acc; simp [revLoop, ih]

theorem reverse_list_eq (l : List SRec) : reverse_list l = l.reverse := by
  simp [reverse_list, revLoop_eq]

theorem mpsc_stack_foldl (ps : List SRec) :
    ∀ acc, ps.foldl (fun h n => n :: h) acc = ps.reverse ++ acc := by
  induction ps with
  | nil => intro acc; simp
  | cons c n ih => intro acc; simp [ih]

theorem mpsc_stack_eq (ps : List SRec) : mpsc_stack ps = ps.reverse := by
  simp [mpsc_stack, mpsc_stack_foldl]

theorem reverse_mpsc_stack (ps : List SRec) :
    reverse_list (mpsc_stack ps) = ps := by
  rw [reverse_list_eq, mpsc_stack_eq, List.reverse_reverse]

theorem u32le_roundtrip (v : Nat) (hv : v ≤ U32MAX) : u32dec (u32le v) = v := by
  simp only [u32le, u32dec, U32MAX] at *
  omega

theorem u32le_bytes (v : Nat) : ∀ b ∈ u32le v, b < 256 := by
  intro b hb
  simp only [u32le, List.mem_cons, List.mem_singleton] at hb
  rcases hb with h | h | h | h | h
  all_goals first
  | (subst h; omega)
  | cases h

theorem writeBatch_complete (cap : Nat) (l : List SRec) :
    ∀ w, (∀ r ∈ l, fitsU32 r = true) → w + totalInc l < cap →
    writeBatch cap w l = ((l.map encodeRecord).flatten, w + totalInc l, false) := by
  induction l with
  | nil =>
    intro w hfit hsum
    simp [writeBatch, totalInc]
  | cons r rest ih =>
    intro w hfit hsum
    have hfr : fitsU32 r = true := hfit r (List.mem_cons_self r rest)
    have hti : totalInc (r :: rest) = recInc r + totalInc rest := by
      simp [totalInc]
    have hlt : ¬ cap ≤ w + recInc r := by
      rw [hti] at hsum
      omega
    have hrest := ih (w + recInc r)
      (fun q hq => hfit q (List.mem_cons_of_mem r hq)) (by rw [hti] at hsum; omega)
    simp only [writeBatch, hfr, if_true, if_neg hlt, hrest]
    rw [hti]
    simp [List.flatten]
    omega

theorem writeBatch_bound (cap : Nat) (l : List SRec) :
    ∀ w, w < cap →
    (writeBatch cap w l).2.1 < cap + batchMaxInc l
    ∧ ((writeBatch cap w l).2.2 = false → (writeBatch cap w l).2.1 < cap)
    ∧ ((writeBatch cap w l).2.2 = true → cap ≤ (writeBatch cap w l).2.1) := by
  induction l with
  | nil =>
    intro w hw
    refine ⟨?_, fun _ => hw, fun h => by cases h⟩
    show w < cap + batchMaxInc []
    have : batchMaxInc [] = 0 := rfl
    omega
  | cons r rest ih =>
    intro w hw
    have hmax : batchMaxInc (r :: rest) = max (recInc r) (batchMaxInc rest) := rfl
    by_cases hfr : fitsU32 r = true
    · by_cases hstop : cap ≤ w + recInc r
      · simp only [writeBatch, hfr, if_true, if_pos hstop]
        refine ⟨?_, fun h => absurd h (by decide), fun _ => hstop⟩
        show w + recInc r < cap + batchMaxInc (r :: rest)
        rw [hmax]
        have : recInc r ≤ max (recInc r) (batchMaxInc rest) := le_max_left _ _
        omega
      · have hrest := ih (w + recInc r) (by omega)
        simp only [writeBatch, hfr, if_true, if_neg hstop]
        refine ⟨?_, hrest.2.1, hrest.2.2⟩
        have h1 := hrest.1
        have : batchMaxInc rest ≤ batchMaxInc (r :: rest) := by
          rw [hmax]; exact le_max_right _ _
        omega
    · have hfr2 : fitsU32 r = false := by
        cases h : fitsU32 r
        · rfl
        · exact absurd h hfr
      have hrest := ih w hw
      simp only [writeBatch, hfr2, Bool.false_eq_true, if_false]
      refine ⟨?_, hrest.2.1, hrest.2.2⟩
      have : batchMaxInc rest ≤ batchMaxInc (r :: rest) := by
        rw [hmax]; exact le_max_right _ _
      omega

theorem runSampler_ind (cap window : Nat) (iters : List (Nat × List SRec)) :
    ∀ w, w < cap →
    ((runSampler cap window w iters).self_stopped = true →
       (runSampler cap window w iters).running = false
       ∧ (runSampler cap window w iters).flushed = true
       ∧ (runSampler cap window w iters).closed = true)
    ∧ ((runSampler cap window w iters).self_stopped = false →
       (runSampler cap window w iters).written < cap
       ∧ (runSampler cap window w iters).running = true
       ∧ (0 < window → ∀ p ∈ iters, p.1 < window))
    ∧ (runSampler cap window w iters).written < cap + itersMaxInc iters := by
  induction iters with
  | nil =>
    intro w hw
    refine ⟨fun h => by simp [runSampler] at h, ?_, ?_⟩
    · intro _
      exact ⟨hw, rfl, fun _ p hp => absurd hp (List.not_mem_nil p)⟩
    · show w < cap + itersMaxInc []
      have h0 : itersMaxInc [] = 0 := rfl
      omega
  | cons p rest ih =>
    obtain ⟨elapsed, batch⟩ := p
    intro w hw
    have hmax : itersMaxInc ((elapsed, batch) :: rest)
        = max (batchMaxInc batch) (itersMaxInc rest) := rfl
    by_cases htime : 0 < window ∧ window ≤ elapsed
    · simp only [runSampler, if_pos htime]
      refine ⟨fun _ => ⟨trivial, trivial, trivial⟩, fun h => absurd h (by decide), ?_⟩
      show w < cap + max (batchMaxInc batch) (itersMaxInc rest)
      omega
    · have hbound := writeBatch_bound cap batch w hw
      by_cases hstop : (writeBatch cap w batch).2.2 = true
      · simp only [runSampler, if_neg htime, hstop, if_true]
        refine ⟨fun _ => ⟨trivial, trivial, trivial⟩, fun h => absurd h (by decide), ?_⟩
        show (writeBatch cap w batch).2.1
            < cap + max (batchMaxInc batch) (itersMaxInc rest)
        have h1 := hbound.1
        have h2 : batchMaxInc batch ≤ max (batchMaxInc batch) (itersMaxInc rest) :=
          le_max_left _ _
        omega
      · have hstop2 : (writeBatch cap w batch).2.2 = false := by
          cases h : (writeBatch cap w batch).2.2
          · rfl
          · exact absurd h hstop
        have hw2 : (writeBatch cap w batch).2.1 < cap := hbound.2.1 hstop2
        have ihr := ih (writeBatch cap w batch).2.1 hw2
        simp only [runSampler, if_neg htime, hstop2, Bool.false_eq_true, if_false]
        refine ⟨ihr.1, ?_, ?_⟩
        · intro hns
          obtain ⟨hlt, hrun, htimes⟩ := ihr.2.1 hns
          refine ⟨hlt, hrun, ?_⟩
          intro hwpos q hq
          rcases List.mem_cons.mp hq with h | h
          · subst h
            show elapsed < window
            rcases Nat.lt_or_ge elapsed window with h2 | h2
            · exact h2
            · exact absurd ⟨hwpos, h2⟩ htime
          · exact htimes hwpos q h
        · have h1 := ihr.2.2
          have h2 : itersMaxInc rest ≤ max (batchMaxInc batch) (itersMaxInc rest) :=
            le_max_right _ _
          omega

/- ========================= Claim C7 ===================================== -/

/-- Claim C7.  Run over any schedule of iterations starting with
    bytes_written w0 below the cap: whenever the consumer stops on its own
    (cap reached after some record, or elapsed time at least the positive
    window at the top of an iteration) it clears the running flag, flushes
    the user-space buffer and closes the file; if it has not stopped, the
    written counter is still below the cap and, when the window is
    positive, every iteration seen so far started before the window
    elapsed; and in all cases bytes_written never exceeds the cap by as
    much as one maximal record's worth (8 + key length + value length). -/
theorem sampler_self_stop_spec (cap window w0 : Nat)
    (iters : List (Nat × List SRec)) (hw : w0 < cap) :
    ((runSampler cap window w0 iters).self_stopped = true →
       (runSampler cap window w0 iters).running = false
       ∧ (runSampler cap window w0 iters).flushed = true
       ∧ (runSampler cap window w0 iters).closed = true)
    ∧ ((runSampler cap window w0 iters).self_stopped = false →
       (runSampler cap window w0 iters).written < cap
       ∧ (runSampler cap window w0 iters).running = true
       ∧ (0 < window → ∀ p ∈ iters, p.1 < window))
    ∧ (runSampler cap window w0 iters).written < cap + itersMaxInc iters :=
  runSampler_ind cap window iters w0 hw

/-- Claim C7 witness: with cap 20, no time window and two iterations of
    one 13-byte record each (8 + 2 + 3), the sampler self-stops on the
    second record at 26 = 20 + 6 < 20 + 13 bytes, clearing running and
    flushing and closing the file. -/
theorem sampler_self_stop_spec_witness :
    (runSampler 20 0 0 [(0, [⟨[1, 2], [3, 4, 5]⟩]), (1, [⟨[6, 7], [8, 9, 10]⟩])]).running = false ∧
    (runSampler 20 0 0 [(0, [⟨[1, 2], [3, 4, 5]⟩]), (1, [⟨[6, 7], [8, 9, 10]⟩])]).flushed = true ∧
    (runSampler 20 0 0 [(0, [⟨[1, 2], [3, 4, 5]⟩]), (1, [⟨[6, 7], [8, 9, 10]⟩])]).written < 33 := by
  have h := sampler_self_stop_spec 20 0 0
    [(0, [⟨[1, 2], [3, 4, 5]⟩]), (1, [⟨[6, 7], [8, 9, 10]⟩])] (by decide)
  have hstop := h.1 (by decide)
  have hb := h.2.2
  refine ⟨hstop.1, hstop.2.1, ?_⟩
  have hmax : itersMaxInc [((0 : Nat), [(⟨[1, 2], [3, 4, 5]⟩ : SRec)]), (1, [⟨[6, 7], [8, 9, 10]⟩])] = 13 := by decide
  omega

/- ========================= Claim C8 ===================================== -/

/-- Claim C8.  For records pushed in arrival order (each with lengths that
    fit in 32 bits) whose total size stays below the cap: the drained LIFO
    stack reversed by reverse_list restores arrival order; the consumer
    writes exactly the concatenation of the per-record encodings in that
    order; and each record's encoding is bit-exact per the layout — the
    key length as 32-bit little-endian at offset 0, the value length as
    32-bit little-endian at offset 4, the key bytes at offset 8 and the
    value bytes at offset 8 + key length, with both length fields decoding
    back to the true lengths and every header byte below 256. -/
theorem sampler_record_layout (ps : List SRec) (cap : Nat)
    (hfit : ∀ r ∈ ps, fitsU32 r = true)
    (hsum : totalInc ps < cap) :
    reverse_list (mpsc_stack ps) = ps
    ∧ (writeBatch cap 0 (reverse_list (mpsc_stack ps))).1
        = (ps.map encodeRecord).flatten
    ∧ ∀ r ∈ ps,
        (encodeRecord r).length = 8 + r.key.length + r.val.length
        ∧ (encodeRecord r).take 4 = u32le r.key.length
        ∧ ((encodeRecord r).drop 4).take 4 = u32le r.val.length
        ∧ ((encodeRecord r).drop 8).take r.key.length = r.key
        ∧ (encodeRecord r).drop (8 + r.key.length) = r.val
        ∧ u32dec (u32le r.key.length) = r.key.length
        ∧ u32dec (u32le r.val.length) = r.val.length
        ∧ ∀ b ∈ u32le r.key.length ++ u32le r.val.length, b < 256 := by
  have hrev := reverse_mpsc_stack ps
  refine ⟨hrev, ?_, ?_⟩
  · rw [hrev, writeBatch_complete cap ps 0 hfit (by omega)]
  · intro r hr
    have hfr := hfit r hr
    have hku : r.key.length ≤ U32MAX ∧ r.val.length ≤ U32MAX := by
      simpa [fitsU32] using hfr
    have henc : encodeRecord r
        = u32le r.key.length ++ (u32le r.val.length ++ (r.key ++ r.val)) := by
      simp [encodeRecord]
    have henc2 : encodeRecord r
        = (u32le r.key.length ++ u32le r.val.length) ++ (r.key ++ r.val) := by
      simp [encodeRecord]
    have henc3 : encodeRecord r
        = ((u32le r.key.length ++ u32le r.val.length) ++ r.key) ++ r.val := by
      simp [encodeRecord]
    have hlen4 : (u32le r.key.length).length = 4 := rfl
    have hlen4v : (u32le r.val.length).length = 4 := rfl
    have hlen8 : (u32le r.key.length ++ u32le r.val.length).length = 8 := rfl
    have hlen8k : ((u32le r.key.length ++ u32le r.val.length) ++ r.key).length
        = 8 + r.key.length := by
      rw [List.length_append, hlen8]
    refine ⟨?_, ?_, ?_, ?_, ?_, u32le_roundtrip _ hku.1, u32le_roundtrip _ hku.2, ?_⟩
    · rw [henc]
      simp [u32le]
      omega
    · rw [henc]
      exact List.take_left' hlen4
    · rw [henc, List.drop_left' hlen4]
      exact List.take_left' hlen4v
    · rw [henc2, List.drop_left' hlen8]
      exact List.take_left' rfl
    · rw [henc3, List.drop_left' hlen8k]
    · intro b hb
      rcases List.mem_append.mp hb with h | h
      · exact u32le_bytes _ b h
      · exact u32le_bytes _ b h

/-- Claim C8 witness: one record with key [1,2] and value [3,4,5]; its
    encoding is the 8-byte header 02 00 00 00 03 00 00 00 followed by the
    key and value bytes, and the batch written for it is exactly that
    encoding. -/
theorem sampler_record_layout_witness :
    (writeBatch 50 0 (reverse_list (mpsc_stack [⟨[1, 2], [3, 4, 5]⟩]))).1
      = [2, 0, 0, 0, 3, 0, 0, 0, 1, 2, 3, 4, 5] := by
  have h := sampler_record_layout [⟨[1, 2], [3, 4, 5]⟩] 50
    (by intro r hr; rcases List.mem_cons.mp hr with h | h
        · subst h; decide
        · cases h)
    (by decide)
  rw [h.2.1]
  decide

/- ========================= Claim C9 ===================================== -/

/-- Claim C9.  With spool_max_bytes configured as 0, the producer-side
    check of mcz_sampler_maybe_record compares bytes_collected (a Nat,
    always ≥ 0 = cap) against the raw configured cap, so every call while
    configured returns 0 and pushes nothing — for every running state,
    every outcome of the Bernoulli draw (in particular probability 1.0)
    and every key/value pair — silently disabling collection; only the
    consumer thread substitutes the 64 MiB default for a zero cap. -/
theorem sampler_zero_cap_disables (running p_gate : Bool)
    (collected klen vlen : Nat) :
    (mcz_sampler_maybe_record true running p_gate collected 0 klen vlen).ret = 0
    ∧ (mcz_sampler_maybe_record true running p_gate collected 0 klen vlen).pushed = false
    ∧ (mcz_sampler_maybe_record true running p_gate collected 0 klen vlen).collected2
        = collected
    ∧ sampler_consumer_cap 0 = 67108864 := by
  unfold mcz_sampler_maybe_record
  have hc : (0 : Nat) ≤ collected := Nat.zero_le collected
  refine ⟨?_, ?_, ?_, rfl⟩ <;>
    · cases running <;> cases p_gate <;> simp [hc]

/- =========== Namespace listing (mcz_compression.c) — Claim C10 ========== -/

/-- The bytes of the string "default". -/
def defaultBytes : List Nat := [100, 101, 102, 97, 117, 108, 116]

/-- mcz_list_namespaces (src/mcz_compression.c lines 978-1005).  The
    routing table is modelled as the list of its namespace prefixes (none
    when no table is installed).  The malloc'ed output array starts with
    all slots uninitialized (modelled as none); the fill loop writes
    some prefix into each slot EXCEPT that it continues past the "default"
    prefix without writing its slot, and the function returns the array
    together with count = nspaces. -/
def mcz_list_namespaces (table : Option (List (List Nat))) :
    Option (List (Option (List Nat))) × Nat :=
  match table with
  | none => (none, 0)
  | some spaces =>
    if spaces.length = 0 then (none, 0)
    else
      (some (spaces.map fun ns => if ns = defaultBytes then none else some ns),
       spaces.length)

/-- Claim C10 evaluated at the failing input.  For the routing table whose
    namespace list is ["user:", "default"] (and likewise for ["default"]
    alone), mcz_list_namespaces returns count = nspaces but the slot of
    the "default" prefix is left uninitialized (none), so not every slot
    below the returned count holds an initialized namespace string: the
    fill loop (src/mcz_compression.c lines 994-1000) skips the assignment
    with continue while the count still includes the skipped entry, and
    the caller build_ns_ascii dereferences the garbage slot (it only
    guards against NULL, which malloc does not guarantee). -/
theorem mcz_list_namespaces_default_uninit :
    (mcz_list_namespaces (some [[117, 115, 101, 114, 58], defaultBytes])).2 = 2
    ∧ (mcz_list_namespaces (some [[117, 115, 101, 114, 58], defaultBytes])).1
        = some [some [117, 115, 101, 114, 58], none]
    ∧ (mcz_list_namespaces (some [defaultBytes])).2 = 1
    ∧ (mcz_list_namespaces (some [defaultBytes])).1 = some [none] := by
  refine ⟨rfl, ?_, rfl, ?_⟩ <;> decide
